import Mathlib

/-!
Verification development for the Starfish S3 gateway backend
(listing conversion, path-rewrite engine, query cache).

Go strings are modelled as `List Char` (`GoStr`); Go `time.Time` instants and
durations as `Int` (`t1.After t2` is `t1 > t2`, `t.Add d` is `t + d`); the Go
map inside the cache as an association list with unique-key operations
(insert replaces, erase removes); mutex operations are elided because every
claim is about the sequential behaviour of one operation at a time.
-/

/-- Go string, as its list of characters. -/
abbrev GoStr := List Char

/-- Conversion from a Lean string literal to a `GoStr`. -/
def gs (s : String) : GoStr := s.toList

/-- Go `s <= t` on strings: bytewise lexicographic comparison
(codepoint order coincides with UTF-8 byte order). -/
def goStrLe : GoStr → GoStr → Bool
  | [], _ => true
  | _ :: _, [] => false
  | a :: as, b :: bs => if a < b then true else if b < a then false else goStrLe as bs

/-- Go `strings.Index(hay, sub)`: index of the first occurrence of `sub`
in `hay`, `none` for Go's `-1`. -/
def strIndex : GoStr → GoStr → Option Nat
  | [], sub => if sub = [] then some 0 else none
  | c :: rest, sub =>
    if sub.isPrefixOf (c :: rest) then some 0
    else (strIndex rest sub).map (· + 1)

/-- Go `strings.Split(s, sep)` for a one-character separator
(the backend only splits on `","`). -/
def goSplit (sep : Char) : GoStr → List GoStr
  | [] => [[]]
  | c :: rest =>
    let r := goSplit sep rest
    if c = sep then [] :: r
    else
      match r with
      | [] => [[c]]
      | h :: t => (c :: h) :: t

/-- Whitespace characters trimmed by Go `strings.TrimSpace` (ASCII subset;
the backend's keys and template outputs are ASCII). -/
def goIsSpace (c : Char) : Bool :=
  c = ' ' ∨ c = '\t' ∨ c = '\n' ∨ c = '\x0d' ∨ c = '\x0b' ∨ c = '\x0c'

/-- Go `strings.TrimSpace`. -/
def goTrimSpace (s : GoStr) : GoStr :=
  ((s.dropWhile goIsSpace).reverse.dropWhile goIsSpace).reverse

/-- Go `strings.TrimPrefix(s, pre)`: drops `pre` when it is a prefix,
otherwise returns `s` unchanged. -/
def goTrimPrefixStr (s pre : GoStr) : GoStr :=
  if pre.isPrefixOf s then s.drop pre.length else s

/-- One step of the element stack used by Go `path/filepath.Clean`:
skip empty and `"."` elements, let `".."` pop a previous element
(or survive when there is nothing to pop and the path is not rooted). -/
def goCleanStep (rooted : Bool) (acc : List GoStr) (p : GoStr) : List GoStr :=
  if p = [] ∨ p = gs "." then acc
  else if p = gs ".." then
    match acc with
    | [] => if rooted then [] else [gs ".."]
    | q :: rest => if q = gs ".." then p :: q :: rest else rest
  else p :: acc

/-- Go `path/filepath.Clean` (Unix rules), via the element stack. -/
def goClean (s : GoStr) : GoStr :=
  if s = [] then gs "."
  else
    let rooted := s.head? = some '/'
    let elems := ((goSplit '/' s).foldl (goCleanStep rooted) []).reverse
    let body := (elems.intersperse (gs "/")).flatten
    if rooted then '/' :: body
    else if body = [] then gs "." else body

/-- Go `path/filepath.Join(a, b)`: empty elements are dropped, the rest are
joined with `"/"` and cleaned. -/
def goFilepathJoin (a b : GoStr) : GoStr :=
  if a = [] ∧ b = [] then []
  else if a = [] then goClean b
  else if b = [] then goClean a
  else goClean (a ++ '/' :: b)

/-- Go `fmt.Sprintf("%d", n)` for a signed integer. -/
def goIntStr (n : Int) : GoStr := (toString n).toList

/-- First-occurrence deduplication, the key set of a Go map built by
inserting the elements of a list in order. -/
def dedupKeepFirst (l : List GoStr) : List GoStr := go [] l where
  go (seen : List GoStr) : List GoStr → List GoStr
    | [] => []
    | x :: rest => if x ∈ seen then go seen rest else x :: go (x :: seen) rest

/-- Zone information attached to an entry (`StarfishZone` in types.go). -/
structure StarfishZone where
  id : Int
  name : GoStr
  relativePath : GoStr
deriving DecidableEq

/-- One metadata record from the Starfish index (`StarfishEntry` in types.go). -/
structure StarfishEntry where
  id : Int := 0
  filename : GoStr := []
  parentPath : GoStr := []
  fullPath : GoStr := []
  type : Int := 0
  size : Int := 0
  mode : GoStr := []
  uid : Int := 0
  gid : Int := 0
  createTimeUnix : Int := 0
  modifyTimeUnix : Int := 0
  accessTimeUnix : Int := 0
  volume : GoStr := []
  inode : Int := 0
  sizeUnit : GoStr := []
  tagsExplicitStr : GoStr := []
  tagsInheritedStr : GoStr := []
  zones : List StarfishZone := []
deriving DecidableEq

/-- Response of a Starfish query (`StarfishQueryResponse` in types.go). -/
structure StarfishQueryResponse where
  entries : List StarfishEntry
  total : Int
deriving DecidableEq

/-- `(*StarfishEntry).GetTagsExplicit`: split the explicit-tags string on
commas; the empty string yields the empty list. -/
def StarfishEntry.GetTagsExplicit (e : StarfishEntry) : List GoStr :=
  if e.tagsExplicitStr = [] then [] else goSplit ',' e.tagsExplicitStr

/-- `(*StarfishEntry).GetTagsInherited`. -/
def StarfishEntry.GetTagsInherited (e : StarfishEntry) : List GoStr :=
  if e.tagsInheritedStr = [] then [] else goSplit ',' e.tagsInheritedStr

/-- Key set of the `tagMap` built by `(*StarfishEntry).GetAllTags`:
explicit tags then inherited tags, deduplicated. `GetAllTags` itself returns
these keys in Go map iteration order, which is unspecified; theorems
therefore quantify over permutations of this set. -/
def goAllTagsKeys (e : StarfishEntry) : List GoStr :=
  dedupKeepFirst (e.GetTagsExplicit ++ e.GetTagsInherited)

/-- `(*StarfishEntry).GetModifyTime`: `time.Unix(mt, 0)` when `mt > 0`,
the zero `time.Time` (modelled as `none`) otherwise. -/
def StarfishEntry.GetModifyTime (e : StarfishEntry) : Option Int :=
  if e.modifyTimeUnix > 0 then some e.modifyTimeUnix else none

/-- `buildObjectKeyFromEntryWithBucket`: the full path with one leading `/`
trimmed when present, otherwise parent path joined with filename,
otherwise the bare filename. -/
def buildObjectKeyFromEntryWithBucket (e : StarfishEntry) (_bucket : GoStr) : GoStr :=
  if e.fullPath ≠ [] then goTrimPrefixStr e.fullPath (gs "/")
  else if e.parentPath ≠ [] then goFilepathJoin e.parentPath e.filename
  else e.filename

/-- `shouldBeCommonPrefix(objectKey, prefix, delimiter)`. -/
def shouldBeCommonPrefix (objectKey pfx delim : GoStr) : Bool :=
  if ¬ pfx.isPrefixOf objectKey then false
  else
    let afterPfx := objectKey.drop pfx.length
    match strIndex afterPfx delim with
    | none => false
    | some i => i + delim.length < afterPfx.length

/-- `getCommonPrefix(objectKey, prefix, delimiter)`. -/
def getCommonPrefix (objectKey pfx delim : GoStr) : GoStr :=
  let afterPfx := objectKey.drop pfx.length
  match strIndex afterPfx delim with
  | none => pfx
  | some i => pfx ++ afterPfx.take (i + delim.length)

/-- `containsCommonPrefix(commonPrefixes, newPrefix)`. -/
def containsCommonPrefix (commonPrefixes : List GoStr) (newPrefix : GoStr) : Bool :=
  commonPrefixes.any (· = newPrefix)

/-- `generateETag(entry)`: `"\"%d-%d\""` of size and modify time. -/
def generateETag (e : StarfishEntry) : GoStr :=
  '"' :: (goIntStr e.size ++ '-' :: goIntStr e.modifyTimeUnix) ++ ['"']

/-- One object of a listing response (the fields of `s3response.Object`
the converter fills in). -/
structure S3Object where
  key : GoStr
  size : Int
  lastModified : Option Int
  eTag : GoStr
deriving DecidableEq

/-- Full outcome of the conversion loop. `remaining` instruments the early
`break`: the entries left unprocessed when truncation stops the loop
(empty when the loop ran to the end). -/
structure ConvertOutcome where
  contents : List S3Object
  commonPrefixes : List GoStr
  isTruncated : Bool
  remaining : List StarfishEntry
deriving DecidableEq

/-- The entry loop of `convertToListObjectsResult` (identical in
`convertToListObjectsV2Result`): truncation check, key building,
start-after skip, common-prefix folding with deduplication, object emission. -/
def convertLoop (bucket pfx delim startAfter : GoStr) (maxKeys : Int) :
    List StarfishEntry → List S3Object → List GoStr → Nat → ConvertOutcome
  | [], cs, ps, _ => ⟨cs, ps, false, []⟩
  | e :: rest, cs, ps, count =>
    if maxKeys > 0 ∧ (count : Int) ≥ maxKeys then ⟨cs, ps, true, e :: rest⟩
    else
      let objectKey := buildObjectKeyFromEntryWithBucket e bucket
      if startAfter ≠ [] ∧ goStrLe objectKey startAfter then
        convertLoop bucket pfx delim startAfter maxKeys rest cs ps count
      else if delim ≠ [] ∧ shouldBeCommonPrefix objectKey pfx delim then
        let cp := getCommonPrefix objectKey pfx delim
        if containsCommonPrefix ps cp then
          convertLoop bucket pfx delim startAfter maxKeys rest cs ps count
        else
          convertLoop bucket pfx delim startAfter maxKeys rest cs (ps ++ [cp]) count
      else
        convertLoop bucket pfx delim startAfter maxKeys rest
          (cs ++ [⟨objectKey, e.size, e.GetModifyTime, generateETag e⟩]) ps (count + 1)

/-- `s3response.ListObjectsResult` fields the converter fills in. -/
structure ListObjectsResult where
  contents : List S3Object
  commonPrefixes : List GoStr
  isTruncated : Bool
  maxKeys : Int
  name : GoStr
  pfx : GoStr
  delim : GoStr
deriving DecidableEq

/-- `convertToListObjectsResult`: run the loop over the flat entries with
empty accumulators and echo the request parameters. -/
def convertToListObjectsResult (r : StarfishQueryResponse)
    (bucket pfx delim startAfter : GoStr) (maxKeys : Int) : ListObjectsResult :=
  let f := convertLoop bucket pfx delim startAfter maxKeys r.entries [] [] 0
  ⟨f.contents, f.commonPrefixes, f.isTruncated, maxKeys, bucket, pfx, delim⟩

/-- Result of `QueryCache.Get` under one Go map binding
(`CachedResult` in cache.go). -/
structure CachedResult where
  data : StarfishQueryResponse
  cachedAt : Int
  expiresAt : Int
  volumeAndPath : GoStr
  hitCount : Int
deriving DecidableEq

/-- Lookup in the association list modelling the cache's Go map. -/
def assocFind : List (GoStr × CachedResult) → GoStr → Option CachedResult
  | [], _ => none
  | (k, v) :: rest, key => if k = key then some v else assocFind rest key

/-- `delete(c.data, key)` on the modelled map. -/
def assocErase : List (GoStr × CachedResult) → GoStr → List (GoStr × CachedResult)
  | [], _ => []
  | (k, v) :: rest, key =>
    if k = key then assocErase rest key else (k, v) :: assocErase rest key

/-- In-place mutation of the binding for `key` (the Go code updates the
cached result through a pointer). -/
def assocUpdate : List (GoStr × CachedResult) → GoStr → CachedResult →
    List (GoStr × CachedResult)
  | [], _, _ => []
  | (k, w) :: rest, key, v =>
    if k = key then (key, v) :: assocUpdate rest key v
    else (k, w) :: assocUpdate rest key v

/-- `c.data[key] = v` on the modelled map: replace an existing binding,
append a fresh one otherwise. -/
def assocInsert (l : List (GoStr × CachedResult)) (key : GoStr) (v : CachedResult) :
    List (GoStr × CachedResult) :=
  if (assocFind l key).isSome then assocUpdate l key v else l ++ [(key, v)]

/-- The Starfish query cache (`QueryCache` in cache.go); the metrics manager
is elided — the metric values the operations emit are returned explicitly
where a claim mentions them. -/
structure QueryCache where
  data : List (GoStr × CachedResult)
  defaultTTL : Int
deriving DecidableEq

/-- `(*QueryCache).Get` at instant `now`: absent key is a miss; an entry with
`now.After(ExpiresAt)` is deleted and reported as a miss; otherwise the hit
counter is incremented and the stored data returned. -/
def QueryCache.Get (c : QueryCache) (now : Int) (key : GoStr) :
    Option StarfishQueryResponse × QueryCache :=
  match assocFind c.data key with
  | none => (none, c)
  | some cached =>
    if now > cached.expiresAt then
      (none, ⟨assocErase c.data key, c.defaultTTL⟩)
    else
      (some cached.data,
        ⟨assocUpdate c.data key { cached with hitCount := cached.hitCount + 1 },
          c.defaultTTL⟩)

/-- `(*QueryCache).Set` at instant `now`: stamps `CachedAt = now`,
`ExpiresAt = now + defaultTTL`, and a zero hit counter. -/
def QueryCache.Set (c : QueryCache) (now : Int) (key : GoStr)
    (data : StarfishQueryResponse) (volumeAndPath : GoStr) : QueryCache :=
  ⟨assocInsert c.data key ⟨data, now, now + c.defaultTTL, volumeAndPath, 0⟩,
    c.defaultTTL⟩

/-- `(*QueryCache).Invalidate`. -/
def QueryCache.Invalidate (c : QueryCache) (key : GoStr) : QueryCache :=
  ⟨assocErase c.data key, c.defaultTTL⟩

/-- `(*QueryCache).Clear`: empties the map; the second component is the
`clearedCount` the Go code computes and emits on the `starfish_cache_clear`
metric (the count of entries removed). -/
def QueryCache.Clear (c : QueryCache) : QueryCache × Nat :=
  (⟨[], c.defaultTTL⟩, c.data.length)

/-- The statistics `(*QueryCache).Stats` assembles. The Go `float64` division
for `cache_hit_ratio` is modelled as exact rational division. -/
structure CacheStats where
  total : Nat
  valid : Nat
  expired : Nat
  totalHits : Int
  hitRatio : ℚ
deriving DecidableEq

/-- The accumulation loop of `(*QueryCache).Stats`: an entry with
`now.After(ExpiresAt)` counts as expired, otherwise as valid, and only then
its hit counter is added to `totalHits`. -/
def statsFold (now : Int) : List (GoStr × CachedResult) → Nat × Nat × Int
  | [] => (0, 0, 0)
  | (_, cached) :: rest =>
    let (valid, expired, hits) := statsFold now rest
    if now > cached.expiresAt then (valid, expired + 1, hits)
    else (valid + 1, expired, cached.hitCount + hits)

/-- `(*QueryCache).Stats` at instant `now`; the hit ratio is
`totalHits / total` when the map is non-empty, `0.0` otherwise. -/
def QueryCache.Stats (c : QueryCache) (now : Int) : CacheStats :=
  let (valid, expired, hits) := statsFold now c.data
  ⟨c.data.length, valid, expired, hits,
    if c.data.length > 0 then (hits : ℚ) / (c.data.length : ℚ) else 0⟩

/-- Cumulative hits of all entries, expired ones included — the quantity the
specification's words name as the hit-ratio numerator; compared against the
numerator the code actually uses. -/
def statsAllHits (c : QueryCache) : Int :=
  (c.data.map (fun p => p.2.hitCount)).sum

/-- A path-rewrite rule (`PathRewriteRule` in path_rewrite.go): scope
selector (`bucket`, `"*"` for all buckets), regex pattern, template,
priority (higher applied first). -/
structure PathRewriteRule where
  bucket : GoStr
  pattern : GoStr
  template : GoStr
  priority : Int
deriving DecidableEq

/-- `PathRewriteConfig` in path_rewrite.go. -/
structure PathRewriteConfig where
  rules : List PathRewriteRule
deriving DecidableEq

/-- Abstract model of Go `regexp`: compiling a pattern either fails or
yields a matcher (`MatchString`). Theorems about the engine's control flow
hold for every such engine; concrete instances below fix the behaviour of
the individual patterns the examples use. -/
structure RegexEngine where
  compile : GoStr → Option (GoStr → Bool)

/-- The data a template execution can observe: the entry, the original key,
and the list `GetAllTags` returns. `GetAllTags` iterates a Go map, so the
order of `allTags` is unspecified; theorems constrain it to permutations of
`goAllTagsKeys` and quantify over it. -/
structure TemplateInput where
  entry : StarfishEntry
  originalKey : GoStr
  allTags : List GoStr

/-- Abstract model of Go `text/template`: `run` covers `Parse` followed by
`Execute` and fails (`none`) on a parse or execution error. Concrete
instances below fix the behaviour of the individual template strings the
examples use. -/
structure TemplateEngine where
  run : GoStr → TemplateInput → Option GoStr

/-- `(*StarfishBackend).executeTemplate` for a given template engine and an
observed tag-iteration order: run the template, then trim surrounding
whitespace and one leading `/` from the output. -/
def executeTemplate (T : TemplateEngine) (e : StarfishEntry)
    (templateStr origKey : GoStr) (tagOrder : List GoStr) : Option GoStr :=
  match T.run templateStr ⟨e, origKey, tagOrder⟩ with
  | none => none
  | some out => some (goTrimPrefixStr (goTrimSpace out) (gs "/"))

/-- `(*StarfishBackend).applyRule`: a pattern compile failure, a match
failure, or a template failure yields `(false, originalKey)`; a successful
match and execution yields `(true, newKey)`. -/
def applyRule (R : RegexEngine) (T : TemplateEngine) (e : StarfishEntry)
    (origKey : GoStr) (rule : PathRewriteRule) (tagOrder : List GoStr) :
    Bool × GoStr :=
  match R.compile rule.pattern with
  | none => (false, origKey)
  | some m =>
    if m origKey then
      match executeTemplate T e rule.template origKey tagOrder with
      | none => (false, origKey)
      | some newKey => (true, newKey)
    else (false, origKey)

/-- Priority comparison used to sort rules: descending by priority. -/
def rulePriorityGe (a b : PathRewriteRule) : Prop := b.priority ≤ a.priority

instance : DecidableRel rulePriorityGe := fun a b => Int.decLe b.priority a.priority

instance : IsTotal PathRewriteRule rulePriorityGe :=
  ⟨fun a b => le_total b.priority a.priority⟩

instance : IsTrans PathRewriteRule rulePriorityGe :=
  ⟨fun _ _ _ h1 h2 => le_trans h2 h1⟩

/-- The sort of `applyPathRewrite` (`sort.Slice` with `Priority >` as the
less function): highest priority first. Modelled as an insertion sort —
the algorithm Go's `sort.Slice` actually runs for slices within pdqsort's
12-element insertion-sort cutoff, which covers every concrete configuration
in this development. Beyond that cutoff `sort.Slice` is documented as not
stable and may reorder priority ties; the only order property the call
guarantees for every size is `goSortSliceAdmissible` below, which the C5
theorem uses — no theorem in this development asserts tie stability of the
program. -/
def sortRulesByPriority (rules : List PathRewriteRule) : List PathRewriteRule :=
  List.insertionSort rulePriorityGe rules

/-- The full contract Go's `sort.Slice` gives for the rule sort, at every
slice length: the output is a permutation of the input that is sorted
descending by priority. The relative order of equal-priority rules is
explicitly not guaranteed (`sort.Slice` is documented as unstable), so
every list satisfying this predicate is an admissible outcome of the
sorting step. -/
def goSortSliceAdmissible (rules sorted : List PathRewriteRule) : Prop :=
  List.Perm sorted rules ∧ List.Sorted rulePriorityGe sorted

/-- The rule loop of `applyPathRewrite`: a rule is consulted when its bucket
selector is `"*"` or equals the requested bucket; the first consulted rule
whose `applyRule` matches determines the result; otherwise the original key
falls through. -/
def applyRulesLoop (R : RegexEngine) (T : TemplateEngine) (e : StarfishEntry)
    (origKey bucket : GoStr) (tagOrder : List GoStr) :
    List PathRewriteRule → GoStr
  | [] => origKey
  | rule :: rest =>
    if rule.bucket = gs "*" ∨ rule.bucket = bucket then
      match applyRule R T e origKey rule tagOrder with
      | (true, newKey) => newKey
      | (false, _) => applyRulesLoop R T e origKey bucket tagOrder rest
    else applyRulesLoop R T e origKey bucket tagOrder rest

/-- `(*StarfishBackend).applyPathRewrite`: the original key when no
configuration or no rules; otherwise the rule loop over the
priority-sorted rules. -/
def applyPathRewrite (R : RegexEngine) (T : TemplateEngine)
    (cfg : Option PathRewriteConfig) (e : StarfishEntry)
    (origKey bucket : GoStr) (tagOrder : List GoStr) : GoStr :=
  match cfg with
  | none => origKey
  | some c =>
    if c.rules.isEmpty then origKey
    else applyRulesLoop R T e origKey bucket tagOrder (sortRulesByPriority c.rules)

/-- Whether a rule would determine the result when consulted: it is
scope-eligible and `applyRule` reports a match, in which case the produced
key is returned. Used to state first-match-wins and skip-on-error. -/
def ruleFires (R : RegexEngine) (T : TemplateEngine) (e : StarfishEntry)
    (origKey bucket : GoStr) (tagOrder : List GoStr) (rule : PathRewriteRule) :
    Option GoStr :=
  if rule.bucket = gs "*" ∨ rule.bucket = bucket then
    match applyRule R T e origKey rule tagOrder with
    | (true, newKey) => some newKey
    | (false, _) => none
  else none

/-- Concrete regex engine for the examples: Go `regexp` compiles `^(.*)$`
into a matcher that accepts every string; behaviour on other patterns is
left as a compile failure, which the examples never exercise. -/
def regexDotStarEngine : RegexEngine :=
  ⟨fun p => if p = gs "^(.*)$" then some (fun _ => true) else none⟩

/-- Concrete template engine for templates without actions: Go
`text/template` reproduces an action-free template string verbatim. -/
def tmplLiteralEngine : TemplateEngine :=
  ⟨fun t _ => if (strIndex t (gs "\x7b\x7b")).isNone then some t else none⟩

/-- Concrete template engine for the single template
`{{first (getAllTags .Entry)}}`: the registered `first` function returns the
head of `getAllTags`' result (the tag-map iteration order) or `""`. -/
def tmplFirstAllTagsEngine : TemplateEngine :=
  ⟨fun t inp =>
    if t = gs "\x7b\x7bfirst (getAllTags .Entry)\x7d\x7d" then
      some (match inp.allTags with | [] => [] | x :: _ => x)
    else none⟩

/-- Concrete template engine for the single template
`rewritten/{{.Entry.Filename}}`: literal text around the entry's filename. -/
def tmplFilenameEngine : TemplateEngine :=
  ⟨fun t inp =>
    if t = gs "rewritten/\x7b\x7b.Entry.Filename\x7d\x7d" then
      some (gs "rewritten/" ++ inp.entry.filename)
    else none⟩

/-- Cache state with one expired entry holding 5 hits and one valid entry
holding none (viewed at instant 1). -/
def statsExampleCache : QueryCache :=
  ⟨[(gs "a", ⟨⟨[], 0⟩, 0, 0, gs "va", 5⟩),
    (gs "b", ⟨⟨[], 0⟩, 0, 10, gs "vb", 0⟩)], 5⟩

/-- Cache state with a single valid entry under key `"k"`. -/
def hitExampleCache : QueryCache :=
  ⟨[(gs "k", ⟨⟨[], 7⟩, 0, 10, gs "v", 0⟩)], 5⟩

/-- The rule set of the priority-ordering example: a wildcard rule at
priority 100, an `Archive` rule at 200, a `Tagged-Data` rule at 300, all
with the always-matching pattern and action-free templates. -/
def priorityExampleConfig : PathRewriteConfig :=
  ⟨[⟨gs "*", gs "^(.*)$", gs "wildcard-out", 100⟩,
    ⟨gs "Archive", gs "^(.*)$", gs "archive-out", 200⟩,
    ⟨gs "Tagged-Data", gs "^(.*)$", gs "tagged-out", 300⟩]⟩

/-- The entry of the tag-order example: two explicit tags, no inherited. -/
def tagOrderExampleEntry : StarfishEntry :=
  { filename := gs "f.txt", tagsExplicitStr := gs "a,b" }

/-- The configuration of the tag-order example: one wildcard rule whose
template observes the tag-map iteration order. -/
def tagOrderExampleConfig : PathRewriteConfig :=
  ⟨[⟨gs "*", gs "^(.*)$", gs "\x7b\x7bfirst (getAllTags .Entry)\x7d\x7d", 100⟩]⟩

/-- The entry of the listing-rewrite example: no full path, so the key is
built from parent path and filename. -/
def listingExampleEntry : StarfishEntry :=
  { filename := gs "document.pdf", parentPath := gs "data", size := 1048576 }

/-- The configuration of the listing-rewrite example: one wildcard rule
that prepends `rewritten/` to the filename. -/
def listingExampleConfig : PathRewriteConfig :=
  ⟨[⟨gs "*", gs "^(.*)$", gs "rewritten/\x7b\x7b.Entry.Filename\x7d\x7d", 100⟩]⟩

/-- Five entries with distinct keys, for the truncation example
(5 entries, `maxResults = 2`). -/
def fiveEntries : List StarfishEntry :=
  [{ fullPath := gs "/k1" }, { fullPath := gs "/k2" }, { fullPath := gs "/k3" },
   { fullPath := gs "/k4" }, { fullPath := gs "/k5" }]

/-- The two entries of the delimiter-grouping example: presented keys
`a/b/c.txt` and `a/d.txt`. -/
def delimExampleEntries : List StarfishEntry :=
  [{ fullPath := gs "/a/b/c.txt" }, { fullPath := gs "/a/d.txt" }]

/-- An entry with every attribute at its zero value. -/
def entryZero : StarfishEntry := {}

/-- A rule at priority 100, wildcard scope, always-matching pattern, and the
given action-free template. -/
def tiedRule (tmpl : String) : PathRewriteRule :=
  ⟨gs "*", gs "^(.*)$", gs tmpl, 100⟩

/-- Rules 3 to 13 of the tied-priority configuration. -/
def tiedTail : List PathRewriteRule :=
  [tiedRule "t03", tiedRule "t04", tiedRule "t05", tiedRule "t06",
   tiedRule "t07", tiedRule "t08", tiedRule "t09", tiedRule "t10",
   tiedRule "t11", tiedRule "t12", tiedRule "t13"]

/-- Thirteen rules sharing priority 100, in configuration order — one more
than pdqsort's insertion-sort cutoff, so `sort.Slice` gives no stability
guarantee for this set. -/
def tiedRules13 : List PathRewriteRule :=
  tiedRule "t01" :: tiedRule "t02" :: tiedTail

/-- The same thirteen rules with the first two interchanged: a sequence the
`sort.Slice` contract admits as the sorted form of `tiedRules13`. -/
def swappedTiedRules13 : List PathRewriteRule :=
  tiedRule "t02" :: tiedRule "t01" :: tiedTail

theorem assocFind_update_self {l : List (GoStr × CachedResult)} {key : GoStr}
    (v : CachedResult) (h : (assocFind l key).isSome) :
    assocFind (assocUpdate l key v) key = some v := by
  induction l with
  | nil => simp [assocFind] at h
  | cons hd tl ih =>
    obtain ⟨k0, v0⟩ := hd
    by_cases hk : k0 = key
    · simp [assocFind, assocUpdate, hk]
    · simp only [assocFind, if_neg hk] at h
      simpa [assocFind, assocUpdate, hk] using ih h

theorem assocFind_update_ne {l : List (GoStr × CachedResult)} {key k' : GoStr}
    (v : CachedResult) (h : k' ≠ key) :
    assocFind (assocUpdate l key v) k' = assocFind l k' := by
  induction l with
  | nil => rfl
  | cons hd tl ih =>
    obtain ⟨k0, v0⟩ := hd
    by_cases hk : k0 = key
    · have hne : ¬ key = k' := fun hh => h hh.symm
      simp [assocFind, assocUpdate, hk, hne, ih]
    · by_cases hk' : k0 = k'
      · simp [assocFind, assocUpdate, hk, hk', h]
      · simp [assocFind, assocUpdate, hk, hk', ih]

theorem assocFind_append_self {l : List (GoStr × CachedResult)} {key : GoStr}
    (v : CachedResult) (h : assocFind l key = none) :
    assocFind (l ++ [(key, v)]) key = some v := by
  induction l with
  | nil => simp [assocFind]
  | cons hd tl ih =>
    obtain ⟨k0, v0⟩ := hd
    by_cases hk : k0 = key
    · simp [assocFind, hk] at h
    · simp only [assocFind, if_neg hk] at h
      simpa [assocFind, hk] using ih h

theorem assocFind_insert_self (l : List (GoStr × CachedResult)) (key : GoStr)
    (v : CachedResult) : assocFind (assocInsert l key v) key = some v := by
  unfold assocInsert
  by_cases h : (assocFind l key).isSome
  · simp only [h, if_pos]
    exact assocFind_update_self v h
  · simp only [h, Bool.false_eq_true, if_false]
    refine assocFind_append_self v ?_
    exact Option.not_isSome_iff_eq_none.mp (by simpa using h)

theorem assocFind_erase_self (l : List (GoStr × CachedResult)) (key : GoStr) :
    assocFind (assocErase l key) key = none := by
  induction l with
  | nil => rfl
  | cons hd tl ih =>
    obtain ⟨k0, v0⟩ := hd
    by_cases hk : k0 = key
    · simpa [assocErase, hk] using ih
    · simpa [assocErase, assocFind, hk] using ih

/-- C2 (amended): an entry inserted by `Set` at instant `t` carries expiry
`t + TTL`; `Get` returns the stored result for every read at or before the
expiry instant, and for every read strictly after expiry returns absent and
removes the entry as a side effect of the lookup. -/
theorem c2_cache_ttl_amended (c : QueryCache) (key : GoStr)
    (d : StarfishQueryResponse) (vap : GoStr) (t now : Int) :
    assocFind (c.Set t key d vap).data key = some ⟨d, t, t + c.defaultTTL, vap, 0⟩ ∧
    (now ≤ t + c.defaultTTL → ((c.Set t key d vap).Get now key).1 = some d) ∧
    (t + c.defaultTTL < now →
      ((c.Set t key d vap).Get now key).1 = none ∧
      assocFind ((c.Set t key d vap).Get now key).2.data key = none) := by
  have hfind : assocFind (c.Set t key d vap).data key = some ⟨d, t, t + c.defaultTTL, vap, 0⟩ :=
    assocFind_insert_self c.data key _
  refine ⟨hfind, ?_, ?_⟩
  · intro hle
    unfold QueryCache.Get
    rw [hfind]
    simp [not_lt.mpr hle]
  · intro hgt
    unfold QueryCache.Get
    rw [hfind]
    simp only [hgt, if_pos hgt]
    exact ⟨rfl, assocFind_erase_self _ _⟩

/-- Witness for C2's amended theorem: TTL 5, insertion at 0, a read at 3
returns the data, a read at 6 misses. -/
theorem c2_cache_ttl_amended_witness :
    ((QueryCache.Set ⟨[], 5⟩ 0 (gs "k") ⟨[], 1⟩ (gs "v")).Get 3 (gs "k")).1 = some ⟨[], 1⟩ ∧
    ((QueryCache.Set ⟨[], 5⟩ 0 (gs "k") ⟨[], 1⟩ (gs "v")).Get 6 (gs "k")).1 = none :=
  ⟨(c2_cache_ttl_amended ⟨[], 5⟩ (gs "k") ⟨[], 1⟩ (gs "v") 0 3).2.1 (by decide),
   ((c2_cache_ttl_amended ⟨[], 5⟩ (gs "k") ⟨[], 1⟩ (gs "v") 0 6).2.2 (by decide)).1⟩

/-- C2 counterexample: with TTL 5 and insertion at instant 0 the stored
expiry is 5, yet a `Get` at instant 5 — at the expiry time — still returns
the stored result instead of the absent the claim requires. -/
theorem c2_counterexample :
    assocFind (QueryCache.Set ⟨[], 5⟩ 0 (gs "k") ⟨[], 1⟩ (gs "v")).data (gs "k")
      = some ⟨⟨[], 1⟩, 0, 5, gs "v", 0⟩ ∧
    ((QueryCache.Set ⟨[], 5⟩ 0 (gs "k") ⟨[], 1⟩ (gs "v")).Get 5 (gs "k")).1 = some ⟨[], 1⟩ := by
  decide

/-- C8: `Clear` reports the number of entries removed and empties the map;
`Stats` after a `Clear` reports zero total (and valid and expired) entries,
whatever the prior content. -/
theorem c8_clear_then_stats_zero (c : QueryCache) (now : Int) :
    c.Clear.2 = c.data.length ∧ c.Clear.1.data = [] ∧
    (c.Clear.1.Stats now).total = 0 ∧ (c.Clear.1.Stats now).valid = 0 ∧
    (c.Clear.1.Stats now).expired = 0 := by
  refine ⟨rfl, rfl, rfl, rfl, rfl⟩

theorem statsFold_eq (now : Int) (l : List (GoStr × CachedResult)) :
    statsFold now l =
      ((l.filter fun p => decide (now ≤ p.2.expiresAt)).length,
       (l.filter fun p => decide (p.2.expiresAt < now)).length,
       ((l.filter fun p => decide (now ≤ p.2.expiresAt)).map fun p => p.2.hitCount).sum) := by
  induction l with
  | nil => rfl
  | cons hd tl ih =>
    obtain ⟨k0, v0⟩ := hd
    simp only [statsFold, ih]
    by_cases h : now > v0.expiresAt
    · simp [h, not_le.mpr h, List.filter_cons]
    · simp [h, not_lt.mp h, List.filter_cons, not_lt]

/-- C9 (amended): `Stats` reports the total entry count, the counts of
valid (unexpired) and expired entries, and a hit ratio equal to the
cumulative hits of the valid entries — not of all entries — divided by the
total entry count (zero for an empty cache). -/
theorem c9_stats_amended (c : QueryCache) (now : Int) :
    (c.Stats now).total = c.data.length ∧
    (c.Stats now).valid = (c.data.filter fun p => decide (now ≤ p.2.expiresAt)).length ∧
    (c.Stats now).expired = (c.data.filter fun p => decide (p.2.expiresAt < now)).length ∧
    (c.Stats now).totalHits
      = ((c.data.filter fun p => decide (now ≤ p.2.expiresAt)).map fun p => p.2.hitCount).sum ∧
    (c.Stats now).hitRatio
      = if c.data.length > 0 then ((c.Stats now).totalHits : ℚ) / (c.data.length : ℚ) else 0 := by
  unfold QueryCache.Stats
  rw [statsFold_eq]
  exact ⟨rfl, rfl, rfl, rfl, rfl⟩

/-- C9 counterexample: at instant 1, `statsExampleCache` holds an expired
entry with 5 hits and a valid entry with none; the reported hit ratio is 0,
not the 5/2 the claim's "cumulative hits of all entries ÷ total entries"
formula demands. -/
theorem c9_counterexample :
    (statsExampleCache.Stats 1).hitRatio
      ≠ (statsAllHits statsExampleCache : ℚ) / (statsExampleCache.data.length : ℚ) := by
  have h1 : (statsExampleCache.Stats 1).hitRatio = 0 := by
    norm_num [statsExampleCache, QueryCache.Stats, statsFold]
  have h2 : (statsAllHits statsExampleCache : ℚ) = 5 := by
    norm_num [statsExampleCache, statsAllHits]
  have h3 : ((statsExampleCache.data.length : ℚ)) = 2 := by
    norm_num [statsExampleCache]
  rw [h1, h2, h3]
  norm_num

/-- C10: a `Get` hit returns the stored data and changes nothing but the
entry's hit counter, which increases by one: data, insertion time, expiry
time and volume/path descriptor survive unchanged (so a hit never extends
the TTL), every other key's binding is untouched, and the TTL configuration
is unchanged. -/
theorem c10_get_hit_frame (c : QueryCache) (now : Int) (key : GoStr)
    (r : CachedResult) (hfind : assocFind c.data key = some r)
    (hvalid : ¬ now > r.expiresAt) :
    (c.Get now key).1 = some r.data ∧
    assocFind (c.Get now key).2.data key
      = some ⟨r.data, r.cachedAt, r.expiresAt, r.volumeAndPath, r.hitCount + 1⟩ ∧
    (∀ k', k' ≠ key → assocFind (c.Get now key).2.data k' = assocFind c.data k') ∧
    (c.Get now key).2.defaultTTL = c.defaultTTL := by
  unfold QueryCache.Get
  rw [hfind]
  simp only [hvalid, if_neg hvalid]
  refine ⟨rfl, ?_, ?_, rfl⟩
  · exact assocFind_update_self _ (by simp [hfind])
  · intro k' hk'
    exact assocFind_update_ne _ hk'

/-- Witness for C10: a hit at instant 3 on `hitExampleCache` returns the
stored response, bumps the hit counter to 1 and keeps the expiry at 10. -/
theorem c10_get_hit_frame_witness :
    (hitExampleCache.Get 3 (gs "k")).1 = some ⟨[], 7⟩ ∧
    assocFind (hitExampleCache.Get 3 (gs "k")).2.data (gs "k")
      = some ⟨⟨[], 7⟩, 0, 10, gs "v", 1⟩ ∧
    (hitExampleCache.Get 3 (gs "k")).2.defaultTTL = 5 := by
  have h := c10_get_hit_frame hitExampleCache 3 (gs "k") ⟨⟨[], 7⟩, 0, 10, gs "v", 0⟩
    (by decide) (by decide)
  exact ⟨h.1, h.2.1, h.2.2.2⟩

theorem convertLoop_inv (bucket pfx delim startAfter : GoStr) (maxKeys : Int) :
    ∀ (es : List StarfishEntry) (cs : List S3Object) (ps : List GoStr) (count : Nat),
    cs.length = count → (maxKeys > 0 → (count : Int) ≤ maxKeys) →
    (maxKeys > 0 →
      ((convertLoop bucket pfx delim startAfter maxKeys es cs ps count).contents.length : Int)
        ≤ maxKeys) ∧
    ((convertLoop bucket pfx delim startAfter maxKeys es cs ps count).isTruncated = true ↔
      (convertLoop bucket pfx delim startAfter maxKeys es cs ps count).remaining ≠ []) ∧
    ((convertLoop bucket pfx delim startAfter maxKeys es cs ps count).remaining ≠ [] →
      0 < maxKeys ∧
      ((convertLoop bucket pfx delim startAfter maxKeys es cs ps count).contents.length : Int)
        = maxKeys) ∧
    (¬ maxKeys > 0 →
      (convertLoop bucket pfx delim startAfter maxKeys es cs ps count).remaining = [] ∧
      (convertLoop bucket pfx delim startAfter maxKeys es cs ps count).isTruncated = false) := by
  intro es
  induction es with
  | nil =>
    intro cs ps count hlen hbound
    refine ⟨?_, by simp [convertLoop], by simp [convertLoop], by simp [convertLoop]⟩
    intro h
    have := hbound h
    simp only [convertLoop]
    omega
  | cons e rest ih =>
    intro cs ps count hlen hbound
    by_cases hbrk : maxKeys > 0 ∧ (count : Int) ≥ maxKeys
    · simp only [convertLoop, if_pos hbrk]
      refine ⟨?_, by simp, ?_, ?_⟩
      · intro h
        have := hbound h
        omega
      · intro _
        refine ⟨hbrk.1, ?_⟩
        have h1 := hbound hbrk.1
        have h2 := hbrk.2
        omega
      · intro h
        exact absurd hbrk.1 h
    · simp only [convertLoop, if_neg hbrk]
      by_cases hskip : startAfter ≠ [] ∧
          goStrLe (buildObjectKeyFromEntryWithBucket e bucket) startAfter = true
      · simpa only [if_pos hskip] using ih cs ps count hlen hbound
      · simp only [if_neg hskip]
        by_cases hcp : delim ≠ [] ∧
            shouldBeCommonPrefix (buildObjectKeyFromEntryWithBucket e bucket) pfx delim = true
        · simp only [if_pos hcp]
          by_cases hdup : containsCommonPrefix ps
              (getCommonPrefix (buildObjectKeyFromEntryWithBucket e bucket) pfx delim) = true
          · simpa only [if_pos hdup] using ih cs ps count hlen hbound
          · simp only [hdup, if_false, Bool.false_eq_true]
            exact ih cs _ count hlen hbound
        · simp only [if_neg hcp]
          refine ih _ ps (count + 1) (by simp [hlen]) ?_
          intro h
          have : ¬ (count : Int) ≥ maxKeys := fun hh => hbrk ⟨h, hh⟩
          omega

/-- C3: with positive `maxResults` the conversion returns at most
`maxResults` plain objects; the truncation flag is set exactly when entries
were left unprocessed, and in that case the object count has reached
`maxResults` exactly (so whenever more matching items existed beyond the
cutoff the flag is true, and common prefixes found before the stop are the
ones in the result); `maxResults = 0` disables truncation: every entry is
processed and the flag stays false. -/
theorem c3_truncation (r : StarfishQueryResponse)
    (bucket pfx delim startAfter : GoStr) (maxKeys : Int) :
    (convertToListObjectsResult r bucket pfx delim startAfter maxKeys).contents
      = (convertLoop bucket pfx delim startAfter maxKeys r.entries [] [] 0).contents ∧
    (convertToListObjectsResult r bucket pfx delim startAfter maxKeys).isTruncated
      = (convertLoop bucket pfx delim startAfter maxKeys r.entries [] [] 0).isTruncated ∧
    (maxKeys > 0 →
      ((convertLoop bucket pfx delim startAfter maxKeys r.entries [] [] 0).contents.length : Int)
        ≤ maxKeys) ∧
    ((convertLoop bucket pfx delim startAfter maxKeys r.entries [] [] 0).isTruncated = true ↔
      (convertLoop bucket pfx delim startAfter maxKeys r.entries [] [] 0).remaining ≠ []) ∧
    ((convertLoop bucket pfx delim startAfter maxKeys r.entries [] [] 0).remaining ≠ [] →
      0 < maxKeys ∧
      ((convertLoop bucket pfx delim startAfter maxKeys r.entries [] [] 0).contents.length : Int)
        = maxKeys) ∧
    (maxKeys = 0 →
      (convertLoop bucket pfx delim startAfter maxKeys r.entries [] [] 0).remaining = [] ∧
      (convertLoop bucket pfx delim startAfter maxKeys r.entries [] [] 0).isTruncated = false) := by
  have h := convertLoop_inv bucket pfx delim startAfter maxKeys r.entries [] [] 0
    rfl (fun h => by omega)
  exact ⟨rfl, rfl, h.1, h.2.1, h.2.2.1, fun hz => h.2.2.2 (by omega)⟩

/-- Witness for C3, the specification's own example: 5 entries with
`maxResults = 2` yield exactly 2 objects and a set truncation flag. -/
theorem c3_truncation_witness :
    ((convertLoop (gs "b") [] [] [] 2 fiveEntries [] [] 0).contents.length : Int) ≤ 2 ∧
    ((convertLoop (gs "b") [] [] [] 2 fiveEntries [] [] 0).contents.length : Int) = 2 ∧
    (convertLoop (gs "b") [] [] [] 2 fiveEntries [] [] 0).isTruncated = true := by
  have h := c3_truncation ⟨fiveEntries, 5⟩ (gs "b") [] [] [] 2
  refine ⟨h.2.2.1 (by norm_num), (h.2.2.2.2.1 (by decide)).2, ?_⟩
  exact h.2.2.2.1.mpr (by decide)

theorem strIndex_some_split {hay sub : GoStr} {i : Nat}
    (h : strIndex hay sub = some i) :
    ∃ u v, hay = u ++ sub ++ v ∧ u.length = i := by
  induction hay generalizing i with
  | nil =>
    unfold strIndex at h
    by_cases hs : sub = ([] : GoStr)
    · simp [hs] at h
      exact ⟨[], [], by simp [hs], by simp [h]⟩
    · simp [hs] at h
  | cons c rest ih =>
    unfold strIndex at h
    by_cases hp : sub.isPrefixOf (c :: rest) = true
    · simp only [hp, if_pos, Option.some.injEq] at h
      obtain ⟨t, ht⟩ := List.isPrefixOf_iff_prefix.mp hp
      exact ⟨[], t, by simp [ht], by simp [← h]⟩
    · simp only [hp, Bool.false_eq_true, if_false, Option.map_eq_some'] at h
      obtain ⟨j, hj, hji⟩ := h
      obtain ⟨u, v, hsplit, hlen⟩ := ih hj
      exact ⟨c :: u, v, by simp [hsplit], by simp [hlen, ← hji]⟩

theorem strIndex_le_split {hay sub u v : GoStr} (hsplit : hay = u ++ sub ++ v) :
    ∃ i, strIndex hay sub = some i ∧ i ≤ u.length := by
  induction u generalizing hay with
  | nil =>
    refine ⟨0, ?_, Nat.le_refl 0⟩
    simp only [List.nil_append] at hsplit
    match hay, hsplit with
    | [], hsplit =>
      have hs : sub = ([] : GoStr) := by
        cases sub with
        | nil => rfl
        | cons a b => simp at hsplit
      simp [strIndex, hs]
    | c :: rest, hsplit =>
      have hp : sub.isPrefixOf (c :: rest) = true :=
        List.isPrefixOf_iff_prefix.mpr ⟨v, hsplit.symm⟩
      unfold strIndex
      rw [if_pos hp]
  | cons a u' ih =>
    subst hsplit
    by_cases hp : sub.isPrefixOf (a :: (u' ++ sub ++ v)) = true
    · refine ⟨0, ?_, Nat.zero_le _⟩
      show strIndex (a :: (u' ++ sub ++ v)) sub = some 0
      unfold strIndex
      rw [if_pos hp]
    · obtain ⟨j, hj, hle⟩ := ih rfl
      refine ⟨j + 1, ?_, by simpa using Nat.succ_le_succ hle⟩
      show strIndex (a :: (u' ++ sub ++ v)) sub = some (j + 1)
      unfold strIndex
      rw [if_neg hp, hj]
      rfl

theorem strIndex_min {hay sub u v : GoStr} {i : Nat} (hsplit : hay = u ++ sub ++ v)
    (h : strIndex hay sub = some i) : i ≤ u.length := by
  obtain ⟨j, hj, hle⟩ := strIndex_le_split hsplit
  rw [h] at hj
  cases hj
  exact hle

theorem convertLoop_prefixes_nodup (bucket pfx delim startAfter : GoStr) (maxKeys : Int) :
    ∀ (es : List StarfishEntry) (cs : List S3Object) (ps : List GoStr) (count : Nat),
    ps.Nodup →
    (convertLoop bucket pfx delim startAfter maxKeys es cs ps count).commonPrefixes.Nodup := by
  intro es
  induction es with
  | nil =>
    intro cs ps count hnd
    simpa [convertLoop] using hnd
  | cons e rest ih =>
    intro cs ps count hnd
    by_cases hbrk : maxKeys > 0 ∧ (count : Int) ≥ maxKeys
    · simpa only [convertLoop, if_pos hbrk] using hnd
    · simp only [convertLoop, if_neg hbrk]
      by_cases hskip : startAfter ≠ [] ∧
          goStrLe (buildObjectKeyFromEntryWithBucket e bucket) startAfter = true
      · simpa only [if_pos hskip] using ih cs ps count hnd
      · simp only [if_neg hskip]
        by_cases hcp : delim ≠ [] ∧
            shouldBeCommonPrefix (buildObjectKeyFromEntryWithBucket e bucket) pfx delim = true
        · simp only [if_pos hcp]
          by_cases hdup : containsCommonPrefix ps
              (getCommonPrefix (buildObjectKeyFromEntryWithBucket e bucket) pfx delim) = true
          · simpa only [if_pos hdup] using ih cs ps count hnd
          · simp only [hdup, if_false, Bool.false_eq_true]
            refine ih cs _ count ?_
            have hnotmem : getCommonPrefix (buildObjectKeyFromEntryWithBucket e bucket) pfx delim
                ∉ ps := by
              intro hmem
              exact hdup (by simp [containsCommonPrefix, List.any_eq_true]; exact hmem)
            simp [List.nodup_append, hnd, hnotmem]
        · simpa only [if_neg hcp] using ih _ ps (count + 1) hnd

theorem shouldBeCommonPrefix_iff (key pfx delim : GoStr) :
    shouldBeCommonPrefix key pfx delim = true ↔
      (pfx.isPrefixOf key = true ∧
        ∃ u v, key.drop pfx.length = u ++ delim ++ v ∧ v ≠ []) := by
  unfold shouldBeCommonPrefix
  by_cases hpre : pfx.isPrefixOf key = true
  · rw [if_neg (not_not_intro hpre)]
    rcases hidx : strIndex (key.drop pfx.length) delim with _ | i
    · simp only [hidx]
      constructor
      · intro h
        exact absurd h (by simp)
      · rintro ⟨-, u, v, hsplit, -⟩
        obtain ⟨j, hj, -⟩ := strIndex_le_split hsplit
        rw [hidx] at hj
        cases hj
    · simp only [hidx, decide_eq_true_eq]
      constructor
      · intro h
        obtain ⟨u, v, hsplit, hlen⟩ := strIndex_some_split hidx
        refine ⟨hpre, u, v, hsplit, ?_⟩
        have hlens : (key.drop pfx.length).length = u.length + delim.length + v.length := by
          rw [hsplit]
          simp only [List.length_append]
        intro hv
        subst hv
        simp only [List.length_nil, Nat.add_zero] at hlens
        omega
      · rintro ⟨-, u, v, hsplit, hv⟩
        have hmin : i ≤ u.length := strIndex_min hsplit hidx
        have hvpos : 0 < v.length := List.length_pos.mpr hv
        have hlens : (key.drop pfx.length).length = u.length + delim.length + v.length := by
          rw [hsplit]
          simp only [List.length_append]
        omega
  · rw [if_pos hpre]
    simp only [Bool.false_eq_true, false_iff, not_and]
    intro h
    exact absurd h hpre

theorem getCommonPrefix_first (key pfx delim : GoStr)
    (h : shouldBeCommonPrefix key pfx delim = true) :
    ∃ u v, key.drop pfx.length = u ++ delim ++ v ∧ v ≠ [] ∧
      getCommonPrefix key pfx delim = pfx ++ u ++ delim ∧
      ∀ u' v', key.drop pfx.length = u' ++ delim ++ v' → u.length ≤ u'.length := by
  obtain ⟨hpre, u0, v0, hs0, hv0⟩ := (shouldBeCommonPrefix_iff key pfx delim).mp h
  rcases hidx : strIndex (key.drop pfx.length) delim with _ | i
  · obtain ⟨j, hj, -⟩ := strIndex_le_split hs0
    rw [hidx] at hj
    cases hj
  · obtain ⟨u, v, hsplit, hlen⟩ := strIndex_some_split hidx
    have hbound : i + delim.length < (key.drop pfx.length).length := by
      unfold shouldBeCommonPrefix at h
      rw [if_neg (not_not_intro hpre)] at h
      simp only [hidx, decide_eq_true_eq] at h
      exact h
    refine ⟨u, v, hsplit, ?_, ?_, ?_⟩
    · have hlens : (key.drop pfx.length).length = u.length + delim.length + v.length := by
        rw [hsplit]
        simp only [List.length_append]
      intro hv
      subst hv
      simp only [List.length_nil, Nat.add_zero] at hlens
      omega
    · unfold getCommonPrefix
      simp only [hidx]
      have htake : (key.drop pfx.length).take (i + delim.length) = u ++ delim := by
        rw [hsplit]
        refine List.take_left' ?_
        simp only [List.length_append]
        omega
      rw [htake, ← List.append_assoc]
    · intro u' v' hs'
      have := strIndex_min hs' hidx
      omega

/-- C4: with a delimiter, an entry's key folds into a common prefix exactly
when it starts with the requested prefix and the remainder past the prefix
contains the delimiter with at least one character after it; the emitted
common prefix is the prefix plus the remainder up to and including the first
delimiter occurrence; emitted common prefixes are never duplicated; a key
that does not start with the prefix is never folded (it proceeds to the
plain-object branch); and keys `a/b/c.txt`, `a/d.txt` with empty prefix and
delimiter `/` produce the single common prefix `a/` and no plain objects. -/
theorem c4_delimiter_grouping :
    (∀ key pfx delim : GoStr,
      shouldBeCommonPrefix key pfx delim = true ↔
        (pfx.isPrefixOf key = true ∧
          ∃ u v, key.drop pfx.length = u ++ delim ++ v ∧ v ≠ [])) ∧
    (∀ key pfx delim : GoStr, shouldBeCommonPrefix key pfx delim = true →
      ∃ u v, key.drop pfx.length = u ++ delim ++ v ∧ v ≠ [] ∧
        getCommonPrefix key pfx delim = pfx ++ u ++ delim ∧
        ∀ u' v', key.drop pfx.length = u' ++ delim ++ v' → u.length ≤ u'.length) ∧
    (∀ (r : StarfishQueryResponse) (bucket pfx delim startAfter : GoStr) (maxKeys : Int),
      (convertToListObjectsResult r bucket pfx delim startAfter maxKeys).commonPrefixes.Nodup) ∧
    (∀ key pfx delim : GoStr, pfx.isPrefixOf key = false →
      shouldBeCommonPrefix key pfx delim = false) ∧
    ((convertToListObjectsResult ⟨delimExampleEntries, 2⟩
        (gs "bkt") [] (gs "/") [] 1000).contents = [] ∧
      (convertToListObjectsResult ⟨delimExampleEntries, 2⟩
        (gs "bkt") [] (gs "/") [] 1000).commonPrefixes = [gs "a/"]) := by
  refine ⟨shouldBeCommonPrefix_iff, getCommonPrefix_first, ?_, ?_, by decide, by decide⟩
  · intro r bucket pfx delim startAfter maxKeys
    exact convertLoop_prefixes_nodup bucket pfx delim startAfter maxKeys
      r.entries [] [] 0 List.nodup_nil
  · intro key pfx delim hpre
    unfold shouldBeCommonPrefix
    rw [if_pos (by simp [hpre])]

/-- Witness for C4: a key that does not start with the requested prefix is
not folded into a common prefix. -/
theorem c4_delimiter_grouping_witness :
    shouldBeCommonPrefix (gs "x/y") (gs "zz") (gs "/") = false :=
  c4_delimiter_grouping.2.2.2.1 (gs "x/y") (gs "zz") (gs "/") (by decide)

theorem applyRulesLoop_cons_none (R : RegexEngine) (T : TemplateEngine)
    (e : StarfishEntry) (key bucket : GoStr) (ord : List GoStr)
    (a : PathRewriteRule) (l : List PathRewriteRule)
    (h : ruleFires R T e key bucket ord a = none) :
    applyRulesLoop R T e key bucket ord (a :: l)
      = applyRulesLoop R T e key bucket ord l := by
  unfold ruleFires at h
  unfold applyRulesLoop
  by_cases helig : a.bucket = gs "*" ∨ a.bucket = bucket
  · rw [if_pos helig] at h ⊢
    rcases happ : applyRule R T e key a ord with ⟨b, s⟩
    cases b
    · simp only [happ]
      cases l with
      | nil => rfl
      | cons b' bs => rfl
    · rw [happ] at h
      simp at h
  · rw [if_neg helig]
    cases l with
    | nil => rfl
    | cons b' bs => rfl

theorem applyRulesLoop_cons_some (R : RegexEngine) (T : TemplateEngine)
    (e : StarfishEntry) (key bucket : GoStr) (ord : List GoStr)
    (a : PathRewriteRule) (l : List PathRewriteRule) (nk : GoStr)
    (h : ruleFires R T e key bucket ord a = some nk) :
    applyRulesLoop R T e key bucket ord (a :: l) = nk := by
  unfold ruleFires at h
  unfold applyRulesLoop
  by_cases helig : a.bucket = gs "*" ∨ a.bucket = bucket
  · rw [if_pos helig] at h ⊢
    rcases happ : applyRule R T e key a ord with ⟨b, s⟩
    cases b
    · rw [happ] at h
      simp at h
    · rw [happ] at h
      simp only [Option.some.injEq] at h
      simp only [happ, h]
  · rw [if_neg helig] at h
    cases h

/-- C5 (code evaluated at the failing input): the specification's stable
tie order is not a guarantee of the code. For thirteen rules sharing
priority 100, both the configuration order itself and the order with the
first two rules interchanged satisfy the full `sort.Slice` contract
(permutation, sorted descending by priority — `sort.Slice` is documented as
not stable and its pdqsort may reorder ties beyond the 12-element
insertion-sort cutoff); the rule loop run on the two admissible orders
returns different keys, so which tied rule wins is not determined by
configuration order. The tie-free 100/200/300 example, where the claim
needs no stability, still yields the priority-200 rule's result. -/
theorem c5_priority_tie_instability :
    goSortSliceAdmissible tiedRules13 tiedRules13 ∧
    goSortSliceAdmissible tiedRules13 swappedTiedRules13 ∧
    applyRulesLoop regexDotStarEngine tmplLiteralEngine entryZero
      (gs "k") (gs "B") [] tiedRules13 = gs "t01" ∧
    applyRulesLoop regexDotStarEngine tmplLiteralEngine entryZero
      (gs "k") (gs "B") [] swappedTiedRules13 = gs "t02" ∧
    gs "t01" ≠ gs "t02" ∧
    applyPathRewrite regexDotStarEngine tmplLiteralEngine (some priorityExampleConfig)
      entryZero (gs "orig") (gs "Archive") [] = gs "archive-out" := by
  refine ⟨⟨List.Perm.refl _, by decide⟩, ⟨?_, by decide⟩,
    by decide, by decide, by decide, by decide⟩
  show List.Perm (tiedRule "t02" :: tiedRule "t01" :: tiedTail)
    (tiedRule "t01" :: tiedRule "t02" :: tiedTail)
  exact List.Perm.swap _ _ _

theorem ruleFires_none_of_failure (R : RegexEngine) (T : TemplateEngine)
    (e : StarfishEntry) (key bucket : GoStr) (ord : List GoStr)
    (rule : PathRewriteRule)
    (h : R.compile rule.pattern = none ∨
      executeTemplate T e rule.template key ord = none) :
    ruleFires R T e key bucket ord rule = none := by
  unfold ruleFires applyRule
  by_cases helig : rule.bucket = gs "*" ∨ rule.bucket = bucket
  · rw [if_pos helig]
    rcases h with hc | ht
    · simp only [hc]
    · rcases hc : R.compile rule.pattern with _ | m
      · simp only []
      · simp only []
        by_cases hm : m key = true
        · rw [if_pos hm]
          simp only [ht]
        · rw [if_neg hm]
  · rw [if_neg helig]

theorem applyRulesLoop_skip (R : RegexEngine) (T : TemplateEngine)
    (e : StarfishEntry) (key bucket : GoStr) (ord : List GoStr)
    (l1 l2 : List PathRewriteRule) (rule : PathRewriteRule)
    (h : ruleFires R T e key bucket ord rule = none) :
    applyRulesLoop R T e key bucket ord (l1 ++ rule :: l2)
      = applyRulesLoop R T e key bucket ord (l1 ++ l2) := by
  induction l1 with
  | nil => simpa using applyRulesLoop_cons_none R T e key bucket ord rule l2 h
  | cons a l1' ih =>
    rcases ha : ruleFires R T e key bucket ord a with _ | nk
    · rw [List.cons_append, applyRulesLoop_cons_none R T e key bucket ord a _ ha,
        List.cons_append, applyRulesLoop_cons_none R T e key bucket ord a _ ha]
      exact ih
    · rw [List.cons_append, applyRulesLoop_cons_some R T e key bucket ord a _ nk ha,
        List.cons_append, applyRulesLoop_cons_some R T e key bucket ord a _ nk ha]

theorem applyRule_matched (R : RegexEngine) (T : TemplateEngine)
    (e : StarfishEntry) (key : GoStr) (rule : PathRewriteRule)
    (ord : List GoStr) (nk : GoStr)
    (h : applyRule R T e key rule ord = (true, nk)) :
    ∃ m, R.compile rule.pattern = some m ∧ m key = true ∧
      executeTemplate T e rule.template key ord = some nk := by
  unfold applyRule at h
  rcases hc : R.compile rule.pattern with _ | m
  · simp only [hc] at h
    simp at h
  · simp only [hc] at h
    by_cases hm : m key = true
    · rw [if_pos hm] at h
      rcases ht : executeTemplate T e rule.template key ord with _ | out
      · simp only [ht] at h
        simp at h
      · simp only [ht, Prod.mk.injEq] at h
        exact ⟨m, rfl, hm, congrArg some h.2⟩
    · rw [if_neg hm] at h
      simp at h

theorem applyRulesLoop_classify (R : RegexEngine) (T : TemplateEngine)
    (e : StarfishEntry) (key bucket : GoStr) (ord : List GoStr) :
    ∀ l : List PathRewriteRule,
    applyRulesLoop R T e key bucket ord l = key ∨
      ∃ rule ∈ l, (rule.bucket = gs "*" ∨ rule.bucket = bucket) ∧
        ∃ m, R.compile rule.pattern = some m ∧ m key = true ∧
          executeTemplate T e rule.template key ord
            = some (applyRulesLoop R T e key bucket ord l) := by
  intro l
  induction l with
  | nil => exact Or.inl rfl
  | cons a rest ih =>
    rcases ha : ruleFires R T e key bucket ord a with _ | nk
    · rw [applyRulesLoop_cons_none R T e key bucket ord a rest ha]
      rcases ih with hk | ⟨rule, hmem, helig, m, hm1, hm2, hm3⟩
      · exact Or.inl hk
      · exact Or.inr ⟨rule, by simp [hmem], helig, m, hm1, hm2, hm3⟩
    · rw [applyRulesLoop_cons_some R T e key bucket ord a rest nk ha]
      unfold ruleFires at ha
      by_cases helig : a.bucket = gs "*" ∨ a.bucket = bucket
      · rw [if_pos helig] at ha
        rcases happ : applyRule R T e key a ord with ⟨b, s⟩
        cases b
        · rw [happ] at ha
          simp at ha
        · rw [happ] at ha
          simp only [Option.some.injEq] at ha
          obtain ⟨m, h1, h2, h3⟩ := applyRule_matched R T e key a ord s happ
          exact Or.inr ⟨a, by simp, helig, m, h1, h2, by rw [h3, ha]⟩
      · rw [if_neg helig] at ha
        cases ha

/-- C7: a rule whose pattern fails to compile or whose template fails to
parse or execute is treated exactly as a non-matching rule — deleting it
from the rule sequence does not change the rewrite result, so evaluation
proceeds to the next rule or falls through; and the engine never produces
an error: every rewrite result is either the unmodified original key or the
successful template output of some scope-eligible, pattern-matching rule. -/
theorem c7_failures_nonfatal :
    (∀ (R : RegexEngine) (T : TemplateEngine) (e : StarfishEntry)
        (key bucket : GoStr) (ord : List GoStr)
        (l1 l2 : List PathRewriteRule) (rule : PathRewriteRule),
      (R.compile rule.pattern = none ∨
        executeTemplate T e rule.template key ord = none) →
      applyRulesLoop R T e key bucket ord (l1 ++ rule :: l2)
        = applyRulesLoop R T e key bucket ord (l1 ++ l2)) ∧
    (∀ (R : RegexEngine) (T : TemplateEngine) (cfg : Option PathRewriteConfig)
        (e : StarfishEntry) (key bucket : GoStr) (ord : List GoStr),
      applyPathRewrite R T cfg e key bucket ord = key ∨
        ∃ c, cfg = some c ∧ ∃ rule ∈ c.rules,
          (rule.bucket = gs "*" ∨ rule.bucket = bucket) ∧
          ∃ m, R.compile rule.pattern = some m ∧ m key = true ∧
            executeTemplate T e rule.template key ord
              = some (applyPathRewrite R T cfg e key bucket ord)) := by
  constructor
  · intro R T e key bucket ord l1 l2 rule h
    exact applyRulesLoop_skip R T e key bucket ord l1 l2 rule
      (ruleFires_none_of_failure R T e key bucket ord rule h)
  · intro R T cfg e key bucket ord
    rcases cfg with _ | c
    · exact Or.inl rfl
    · simp only [applyPathRewrite]
      by_cases hemp : c.rules.isEmpty = true
      · rw [if_pos hemp]
        exact Or.inl rfl
      · rw [if_neg hemp]
        rcases applyRulesLoop_classify R T e key bucket ord (sortRulesByPriority c.rules)
          with hk | ⟨rule, hmem, helig, m, hm1, hm2, hm3⟩
        · exact Or.inl hk
        · refine Or.inr ⟨c, rfl, rule, ?_, helig, m, hm1, hm2, hm3⟩
          have : rule ∈ sortRulesByPriority c.rules := hmem
          exact (List.perm_insertionSort rulePriorityGe c.rules).mem_iff.mp this

/-- Witness for C7: a rule whose pattern `(` fails to compile is skipped;
the rewrite over the two-rule sequence equals the rewrite with the broken
rule deleted. -/
theorem c7_failures_nonfatal_witness :
    applyRulesLoop regexDotStarEngine tmplLiteralEngine entryZero
      (gs "k") (gs "B") []
      ([] ++ ⟨gs "*", gs "(", gs "broken", 9⟩ :: [⟨gs "*", gs "^(.*)$", gs "ok", 1⟩])
      = applyRulesLoop regexDotStarEngine tmplLiteralEngine entryZero
        (gs "k") (gs "B") [] ([] ++ [⟨gs "*", gs "^(.*)$", gs "ok", 1⟩]) :=
  c7_failures_nonfatal.1 regexDotStarEngine tmplLiteralEngine entryZero
    (gs "k") (gs "B") [] [] [⟨gs "*", gs "^(.*)$", gs "ok", 1⟩]
    ⟨gs "*", gs "(", gs "broken", 9⟩ (Or.inl rfl)

/-- C6 (code evaluated at the failing input): the deduplicated tag union of
the entry with explicit tags `a,b` admits both `[a, b]` and `[b, a]` as Go
map iteration orders, and the rewrite of one and the same entry, rule set
and scope returns `a` under the first order and `b` under the second —
repeated calls need not yield identical output when the template observes
`getAllTags`. -/
theorem c6_tag_order_nondeterminism :
    goAllTagsKeys tagOrderExampleEntry = [gs "a", gs "b"] ∧
    List.Perm [gs "b", gs "a"] (goAllTagsKeys tagOrderExampleEntry) ∧
    applyPathRewrite regexDotStarEngine tmplFirstAllTagsEngine
      (some tagOrderExampleConfig) tagOrderExampleEntry
      (gs "orig") (gs "B") [gs "a", gs "b"] = gs "a" ∧
    applyPathRewrite regexDotStarEngine tmplFirstAllTagsEngine
      (some tagOrderExampleConfig) tagOrderExampleEntry
      (gs "orig") (gs "B") [gs "b", gs "a"] = gs "b" ∧
    gs "a" ≠ gs "b" := by
  have hset : goAllTagsKeys tagOrderExampleEntry = [gs "a", gs "b"] := by decide
  refine ⟨hset, ?_, by decide, by decide, by decide⟩
  rw [hset]
  exact List.Perm.swap _ _ _

/-- C1 (code evaluated at the failing input): for an entry with no full
path the conversion presents the key built from parent directory and
filename, but does not pass it through the rewrite engine — under a
configuration whose wildcard rule matches every key, the rewrite of that
key differs from the key the conversion emits. -/
theorem c1_rewrite_not_applied :
    buildObjectKeyFromEntryWithBucket listingExampleEntry (gs "bkt")
      = gs "data/document.pdf" ∧
    ((convertToListObjectsResult ⟨[listingExampleEntry], 1⟩
        (gs "bkt") [] [] [] 1000).contents.map fun o => o.key)
      = [gs "data/document.pdf"] ∧
    applyPathRewrite regexDotStarEngine tmplFilenameEngine
      (some listingExampleConfig) listingExampleEntry
      (gs "data/document.pdf") (gs "bkt") []
      = gs "rewritten/document.pdf" ∧
    gs "data/document.pdf" ≠ gs "rewritten/document.pdf" := by
  decide
